import Mathlib

/-!
Verification of the timeline scanning and change-detection engine of
`zk-codehash-timeline` (`src/app.py`), as a shallow embedding in Lean.

Modelling choices, all taken from the source:

* Block heights are `Int` (Python `int` arguments parsed with `type=int`).
* A code hash observation is `Option String`: `none` is Python's `None`
  ("no code"), `some h` is the keccak hex digest string.
* The keccak digest itself is an abstract parameter `keccak : List Nat → String`
  (the bytecode is a byte list); the engine only compares digests.
* A fallible per-height fetch is `Int → Except String (Option String)`,
  mirroring `codehash_at` which either returns `Optional[str]` or raises.
* `range(start, end+1, step)` for `step ≥ 1` is `pyRange start (end+1) step`.
* The scan loop's progress printing depends on `time.time()` readings; the
  whole firing condition of the wall-clock part is abstracted as an arbitrary
  oracle `timerFires : Nat → Bool` indexed by the 1-based iteration counter,
  which soundly covers every possible clock behaviour.  Printed lines are
  collected in `ScanOutput.printed`; the per-height fetch invocations are
  recorded in `ScanOutput.calls`.
-/

/-- Python `range(start, stop, step)` element count, for `step ≥ 1`:
`max 0 (ceil((stop-start)/step))`, i.e. `(stop-start-1)/step + 1` when
`start < stop` and `0` otherwise. -/
def pyRangeLen (start stop step : Int) : Nat :=
  if start < stop then (stop - start - 1).toNat / step.toNat + 1 else 0

/-- Python `range(start, stop, step)` as a list, for `step ≥ 1`:
`start, start+step, start+2*step, …` while `< stop`. -/
def pyRange (start stop step : Int) : List Int :=
  (List.range (pyRangeLen start stop step)).map fun i : Nat => start + step * (i : Int)

/-- `codehash_at` (src/app.py:17-28): query `get_code`; empty (or absent)
bytecode yields `None`; otherwise the keccak digest of the bytecode; a failing
query raises `RuntimeError(f"get_code failed at block {block_id}: {e}")`. -/
def codehash_at (keccak : List Nat → String)
    (get_code : Int → Except String (Option (List Nat))) (block_id : Int) :
    Except String (Option String) :=
  match get_code block_id with
  | .error e => .error ("get_code failed at block " ++ toString block_id ++ ": " ++ e)
  | .ok code =>
    match code with
    | none => .ok none
    | some c => if c.length = 0 then .ok none else .ok (some (keccak c))

/-- The `try/except` around the per-height fetch in `scan_codehash_timeline`
(src/app.py:48-52): a raised exception is caught and the hash downgraded to
`None` for that entry. -/
def caughtHash : Except String (Option String) → Option String
  | .ok h => h
  | .error _ => none

/-- The progress line printed at src/app.py:46. -/
def progressLine (block : Int) : String :=
  "🔎 Checking block " ++ toString block ++ " ..."

/-- The warning line printed at src/app.py:51 when a fetch raises. -/
def warnLine (block : Int) (e : String) : String :=
  "⚠️  Block " ++ toString block ++ ": " ++ e

/-- What one run of the scan loop produces: the returned timeline, the lines
printed to the console during the loop, and the heights at which the
per-height fetch was invoked (one invocation per loop iteration). -/
structure ScanOutput where
  timeline : List (Int × Option String)
  printed : List String
  calls : List Int
  deriving DecidableEq

/-- The body of the `for idx, block in enumerate(range(...), start=1)` loop of
`scan_codehash_timeline` (src/app.py:44-53), one constructor step per
iteration.  `timerFires idx` abstracts the wall-clock condition
`time.time() - last_progress >= 0.2` at iteration `idx`. -/
def scanLoop (fetch : Int → Except String (Option String)) (timerFires : Nat → Bool)
    (show_progress_every : Nat) : Nat → List Int → ScanOutput
  | _, [] => ⟨[], [], []⟩
  | idx, block :: rest =>
    let progress : List String :=
      if timerFires idx || idx % show_progress_every == 0 then [progressLine block] else []
    let fr := fetch block
    let warn : List String :=
      match fr with
      | .ok _ => []
      | .error e => [warnLine block e]
    let r := scanLoop fetch timerFires show_progress_every (idx + 1) rest
    ⟨(block, caughtHash fr) :: r.timeline, progress ++ warn ++ r.printed, block :: r.calls⟩

/-- `scan_codehash_timeline` (src/app.py:30-54): iterate
`range(start_block, end_block + 1, step)` with a 1-based index, fetching the
code hash at each height, catching per-height failures. -/
def scan_codehash_timeline (fetch : Int → Except String (Option String))
    (timerFires : Nat → Bool) (show_progress_every : Nat)
    (start_block end_block step : Int) : ScanOutput :=
  scanLoop fetch timerFires show_progress_every 1 (pyRange start_block (end_block + 1) step)

/-- The `prev` variable of `summarize_changes` (src/app.py:61): initially the
fresh sentinel `object()`, which compares unequal (`!=`) to every
`Optional[str]` value; afterwards the last emitted hash. -/
inductive PrevHash where
  | sentinel : PrevHash
  | seen : Option String → PrevHash
  deriving DecidableEq

/-- The loop of `summarize_changes` (src/app.py:62-65): emit `(block, h)` and
set `prev := h` whenever `h != prev`; the sentinel is `!=` every hash, so the
first entry is always emitted. -/
def summarizeLoop : PrevHash → List (Int × Option String) → List (Int × Option String)
  | _, [] => []
  | .sentinel, (block, h) :: rest => (block, h) :: summarizeLoop (.seen h) rest
  | .seen p, (block, h) :: rest =>
    if h ≠ p then (block, h) :: summarizeLoop (.seen h) rest
    else summarizeLoop (.seen p) rest

/-- `summarize_changes` (src/app.py:56-66). -/
def summarize_changes (timeline : List (Int × Option String)) :
    List (Int × Option String) :=
  summarizeLoop .sentinel timeline

/-- Modelled from the spec's words for the C1 comparison: walk the timeline
keeping the hash of the immediately preceding *timeline* entry (not the last
emitted one), emitting the first entry unconditionally and every later entry
whose hash-or-absence differs from its immediate predecessor's. -/
def specAdjacentWalk : Option String → List (Int × Option String) →
    List (Int × Option String)
  | _, [] => []
  | prev, (block, h) :: rest =>
    if h ≠ prev then (block, h) :: specAdjacentWalk h rest
    else specAdjacentWalk h rest

/-- Modelled from the spec's words for the C1 comparison: first entry
unconditionally, then the strictly adjacent-pairwise walk. -/
def specAdjacentChangePoints : List (Int × Option String) →
    List (Int × Option String)
  | [] => []
  | (block, h) :: rest => (block, h) :: specAdjacentWalk h rest

/-- `unique_hashes` (src/app.py:132): the set `{h for _, h in timeline if h is
not None}` (the source then sorts it into a list; only its size feeds
`changed`). -/
def unique_hashes (timeline : List (Int × Option String)) : Finset String :=
  (timeline.filterMap Prod.snd).toFinset

/-- `changed` (src/app.py:133): more than one unique non-`None` hash. -/
def changedOf (timeline : List (Int × Option String)) : Bool :=
  decide (1 < (unique_hashes timeline).card)

/-- The fatal errors `main` (src/app.py:82-105) can exit with before scanning,
in source order of the checks. -/
inductive MainError where
  | invalidRpc : MainError
  | invalidRange : MainError
  | invalidAddress : MainError
  | connectFailed : MainError
  deriving DecidableEq

/-- The data `main` derives from a completed scan (src/app.py:117-133). -/
structure MainResult where
  timeline : List (Int × Option String)
  change_points : List (Int × Option String)
  changed : Bool
  deriving DecidableEq

/-- The core pipeline of `main` (src/app.py:82-133): validation checks in
source order (RPC URL shape, `from_block > to_block`, `step <= 0`, address
checksum, RPC connectivity), each exiting before any fetch; then the scan with
the default `show_progress_every = 25`, the change summary and the `changed`
verdict.  The second component is the trace of per-height fetch invocations
(empty whenever validation fails, since `main` exits before scanning). -/
def mainPipeline (rpcOk addrOk connOk : Bool)
    (fetch : Int → Except String (Option String)) (timerFires : Nat → Bool)
    (from_block to_block step : Int) :
    Except MainError MainResult × List Int :=
  if rpcOk = false then (.error .invalidRpc, [])
  else if from_block > to_block then (.error .invalidRange, [])
  else if step ≤ 0 then (.error .invalidRange, [])
  else if addrOk = false then (.error .invalidAddress, [])
  else if connOk = false then (.error .connectFailed, [])
  else
    let s := scan_codehash_timeline fetch timerFires 25 from_block to_block step
    (.ok ⟨s.timeline, summarize_changes s.timeline, changedOf s.timeline⟩, s.calls)

/-- A blockchain reader whose `get_code` query fails at height 5 and returns
the one-byte bytecode `[1]` everywhere else. -/
def getCodeFailingAt5 : Int → Except String (Option (List Nat)) :=
  fun b => if b = 5 then .error "boom" else .ok (some [1])

/-- A blockchain reader whose `get_code` returns empty bytecode (genuine
"no code") at height 5 and the one-byte bytecode `[1]` everywhere else. -/
def getCodeEmptyAt5 : Int → Except String (Option (List Nat)) :=
  fun b => if b = 5 then .ok (some []) else .ok (some [1])

/-! ## Helper lemmas about the summarization loop -/

/-- Once past the sentinel, the summarization loop agrees with the spec's
adjacent-pairwise walk: a skipped entry has the same hash as the tracked
previous one, so tracking the last *emitted* hash equals tracking the last
*timeline* hash. -/
theorem summarizeLoop_seen_eq_specAdjacentWalk
    (l : List (Int × Option String)) (p : Option String) :
    summarizeLoop (.seen p) l = specAdjacentWalk p l := by
  induction l generalizing p with
  | nil => rfl
  | cons e rest ih =>
    obtain ⟨b, h⟩ := e
    by_cases hp : h ≠ p
    · simp [summarizeLoop, specAdjacentWalk, hp, ih]
    · push_neg at hp
      subst hp
      simp [summarizeLoop, specAdjacentWalk, ih]

/-- The summarization loop output is a sublist of its input. -/
theorem summarizeLoop_sublist (prev : PrevHash) (l : List (Int × Option String)) :
    List.Sublist (summarizeLoop prev l) l := by
  induction l generalizing prev with
  | nil => simp [summarizeLoop]
  | cons e rest ih =>
    obtain ⟨b, h⟩ := e
    cases prev with
    | sentinel => exact List.Sublist.cons₂ (b, h) (ih (.seen h))
    | seen p =>
      by_cases hp : h ≠ p
      · simpa [summarizeLoop, hp] using List.Sublist.cons₂ (b, h) (ih (.seen h))
      · simpa [summarizeLoop, hp] using List.Sublist.cons (b, h) (ih (.seen p))

/-- Every hash emitted by the summarization loop differs from the hash of the
entry emitted just before it. -/
theorem summarizeLoop_chain (l : List (Int × Option String)) (p : Option String)
    (b0 : Int) :
    List.Chain (fun a b => a.2 ≠ b.2) (b0, p) (summarizeLoop (.seen p) l) := by
  induction l generalizing p b0 with
  | nil => exact List.Chain.nil
  | cons e rest ih =>
    obtain ⟨b, h⟩ := e
    by_cases hp : h ≠ p
    · have hstep : summarizeLoop (.seen p) ((b, h) :: rest)
          = (b, h) :: summarizeLoop (.seen h) rest := by
        simp [summarizeLoop, hp]
      rw [hstep]
      exact List.Chain.cons (Ne.symm hp) (ih h b)
    · push_neg at hp
      subst hp
      simpa [summarizeLoop] using ih h b0

/-- An adjacent-distinct list headed by a hash different from the tracked
previous one is a fixpoint of the summarization loop. -/
theorem summarizeLoop_fixpoint (l : List (Int × Option String))
    (p : Option String) (b0 : Int)
    (hc : List.Chain (fun a b => a.2 ≠ b.2) (b0, p) l) :
    summarizeLoop (.seen p) l = l := by
  induction l generalizing p b0 with
  | nil => rfl
  | cons e rest ih =>
    obtain ⟨b, h⟩ := e
    rcases List.chain_cons.mp hc with ⟨hne, hrest⟩
    have hp : h ≠ p := Ne.symm hne
    simp only [summarizeLoop, if_pos hp]
    exact congrArg _ (ih h b hrest)

/-! ## Claim theorems about summarize_changes -/

/-- C1: `summarize_changes` returns exactly the entries obtained by walking
the timeline in order, emitting the first entry unconditionally and then
every entry whose hash-or-absence differs from the immediately preceding
timeline entry's (strictly adjacent-pairwise comparison). -/
theorem summarize_changes_eq_adjacent_walk (t : List (Int × Option String)) :
    summarize_changes t = specAdjacentChangePoints t := by
  cases t with
  | nil => rfl
  | cons e rest =>
    obtain ⟨b, h⟩ := e
    simp only [summarize_changes, summarizeLoop, specAdjacentChangePoints]
    exact congrArg _ (summarizeLoop_seen_eq_specAdjacentWalk rest h)

/-- C6: the change points form an order-preserving sublist of the timeline,
and on a non-empty timeline the first change point's height is the first
timeline entry's height. -/
theorem summarize_changes_sublist_and_head (t : List (Int × Option String)) :
    List.Sublist (summarize_changes t) t ∧
      (t ≠ [] →
        (summarize_changes t).head?.map Prod.fst = t.head?.map Prod.fst) := by
  constructor
  · exact summarizeLoop_sublist _ t
  · intro hne
    cases t with
    | nil => exact absurd rfl hne
    | cons e rest =>
      obtain ⟨b, h⟩ := e
      simp [summarize_changes, summarizeLoop]

/-- C6 witness: concrete two-entry timeline. -/
theorem summarize_changes_sublist_and_head_witness :
    ([(100, some "a"), (150, none)] : List (Int × Option String)) ≠ [] ∧
      (summarize_changes [(100, some "a"), (150, none)]).head?.map Prod.fst =
        ([(100, some "a"), (150, none)] : List (Int × Option String)).head?.map Prod.fst :=
  ⟨by decide,
    (summarize_changes_sublist_and_head [(100, some "a"), (150, none)]).2 (by decide)⟩

/-- C10: `summarize_changes` is idempotent, its output never holds two
adjacent entries with equal hash-or-absence, and it maps the empty timeline
to the empty sequence. -/
theorem summarize_changes_idempotent (t : List (Int × Option String)) :
    summarize_changes (summarize_changes t) = summarize_changes t ∧
      List.Chain' (fun a b => a.2 ≠ b.2) (summarize_changes t) ∧
      summarize_changes ([] : List (Int × Option String)) = [] := by
  refine ⟨?_, ?_, rfl⟩
  · cases t with
    | nil => rfl
    | cons e rest =>
      obtain ⟨b, h⟩ := e
      have hs : summarize_changes ((b, h) :: rest)
          = (b, h) :: summarizeLoop (.seen h) rest := rfl
      rw [hs]
      show (b, h) :: summarizeLoop (.seen h) (summarizeLoop (.seen h) rest)
          = (b, h) :: summarizeLoop (.seen h) rest
      exact congrArg _ (summarizeLoop_fixpoint _ h b (summarizeLoop_chain rest h b))
  · cases t with
    | nil => exact trivial
    | cons e rest =>
      obtain ⟨b, h⟩ := e
      show List.Chain (fun a b => a.2 ≠ b.2) (b, h) (summarizeLoop (.seen h) rest)
      exact summarizeLoop_chain rest h b

/-! ## Helper lemmas about the scan loop -/

/-- The timeline the scan loop builds: one entry per input height, in input
order, carrying the caught fetch outcome.  It does not depend on the progress
timer, the cadence, or the iteration counter. -/
theorem scanLoop_timeline (fetch : Int → Except String (Option String))
    (timerFires : Nat → Bool) (every idx : Nat) (l : List Int) :
    (scanLoop fetch timerFires every idx l).timeline
      = l.map fun b => (b, caughtHash (fetch b)) := by
  induction l generalizing idx with
  | nil => rfl
  | cons b rest ih => simp [scanLoop, ih]

/-- The scan loop invokes the fetch exactly once per input height. -/
theorem scanLoop_calls (fetch : Int → Except String (Option String))
    (timerFires : Nat → Bool) (every idx : Nat) (l : List Int) :
    (scanLoop fetch timerFires every idx l).calls = l := by
  induction l generalizing idx with
  | nil => rfl
  | cons b rest ih => simp [scanLoop, ih]

/-- The scan's timeline, closed form. -/
theorem scan_timeline_eq (fetch : Int → Except String (Option String))
    (timerFires : Nat → Bool) (every : Nat) (s e st : Int) :
    (scan_codehash_timeline fetch timerFires every s e st).timeline
      = (pyRange s (e + 1) st).map fun b => (b, caughtHash (fetch b)) :=
  scanLoop_timeline fetch timerFires every 1 _

/-- The heights of the scan's timeline are exactly the sampled heights. -/
theorem scan_timeline_map_fst (fetch : Int → Except String (Option String))
    (timerFires : Nat → Bool) (every : Nat) (s e st : Int) :
    (scan_codehash_timeline fetch timerFires every s e st).timeline.map Prod.fst
      = pyRange s (e + 1) st := by
  rw [scan_timeline_eq, List.map_map]
  have hcomp : (Prod.fst ∘ fun b : Int => (b, caughtHash (fetch b))) = id := rfl
  rw [hcomp, List.map_id]

/-- The scan's timeline always has one entry per sampled height. -/
theorem scan_timeline_length (fetch : Int → Except String (Option String))
    (timerFires : Nat → Bool) (every : Nat) (s e st : Int) :
    ((scan_codehash_timeline fetch timerFires every s e st).timeline).length
      = pyRangeLen s (e + 1) st := by
  rw [scan_timeline_eq]
  simp [pyRange]

/-! ## Helper lemmas about the sampled-height sequence -/

theorem pyRange_length (s stop st : Int) :
    (pyRange s stop st).length = pyRangeLen s stop st := by
  simp [pyRange]

/-- For a valid inclusive range, the Python range length is the spec's
`floor((end-start)/stride) + 1`. -/
theorem pyRangeLen_valid (s e st : Int) (h1 : s ≤ e) :
    pyRangeLen s (e + 1) st = (e - s).toNat / st.toNat + 1 := by
  unfold pyRangeLen
  rw [if_pos (by omega)]
  have hrw : e + 1 - s - 1 = e - s := by ring
  rw [hrw]

theorem pyRange_getElem (s stop st : Int) (i : Nat)
    (hi : i < (pyRange s stop st).length) :
    (pyRange s stop st)[i] = s + st * (i : Int) := by
  simp [pyRange]

/-- For a positive stride the sampled heights are strictly increasing. -/
theorem pyRange_pairwise (s stop st : Int) (hst : 1 ≤ st) :
    List.Pairwise (· < ·) (pyRange s stop st) := by
  unfold pyRange
  refine List.Pairwise.map _ ?_ (List.pairwise_lt_range _)
  intro a b hab
  have hcast : (a : Int) < (b : Int) := by exact_mod_cast hab
  have := mul_lt_mul_of_pos_left hcast (by omega : (0 : Int) < st)
  linarith

/-- For a valid inclusive range the first sampled height is `start`. -/
theorem pyRange_head (s e st : Int) (h1 : s ≤ e) :
    (pyRange s (e + 1) st).head? = some s := by
  unfold pyRange
  rw [pyRangeLen_valid s e st h1, List.range_succ_eq_map]
  simp

/-- For a valid range and positive stride every sampled height lies in
`[start, end]`. -/
theorem pyRange_mem_bounds (s e st : Int) (h1 : s ≤ e) (hst : 1 ≤ st) :
    ∀ x ∈ pyRange s (e + 1) st, s ≤ x ∧ x ≤ e := by
  intro x hx
  rw [pyRange, List.mem_map] at hx
  obtain ⟨i, hi, rfl⟩ := hx
  rw [List.mem_range, pyRangeLen_valid s e st h1] at hi
  have hik : i ≤ (e - s).toNat / st.toNat := by omega
  have hnat : st.toNat * i ≤ (e - s).toNat :=
    calc st.toNat * i ≤ st.toNat * ((e - s).toNat / st.toNat) :=
          Nat.mul_le_mul_left _ hik
      _ = (e - s).toNat / st.toNat * st.toNat := Nat.mul_comm _ _
      _ ≤ (e - s).toNat := Nat.div_mul_le_self _ _
  have hcast : (st.toNat : Int) * (i : Int) ≤ ((e - s).toNat : Int) := by
    exact_mod_cast hnat
  rw [Int.toNat_of_nonneg (by omega : (0 : Int) ≤ st),
    Int.toNat_of_nonneg (by omega : (0 : Int) ≤ e - s)] at hcast
  have hpos : 0 ≤ st * (i : Int) :=
    mul_nonneg (by omega) (Int.natCast_nonneg i)
  constructor
  · linarith
  · linarith

/-! ## Claim theorems about the scan -/

/-- C3: for `start ≤ end` and `stride ≥ 1` the scanned timeline has exactly
`floor((end-start)/stride) + 1` entries, whose heights are
`start, start+stride, start+2·stride, …`, strictly increasing, starting at
`start`, all `≤ end`, one timeline entry per sampled height. -/
theorem scan_height_sequence (fetch : Int → Except String (Option String))
    (timerFires : Nat → Bool) (every : Nat) (s e st : Int)
    (h1 : s ≤ e) (hst : 1 ≤ st) :
    ((scan_codehash_timeline fetch timerFires every s e st).timeline).length
        = (e - s).toNat / st.toNat + 1 ∧
      (scan_codehash_timeline fetch timerFires every s e st).timeline.map Prod.fst
        = pyRange s (e + 1) st ∧
      List.Pairwise (· < ·) (pyRange s (e + 1) st) ∧
      (pyRange s (e + 1) st).head? = some s ∧
      (∀ x ∈ pyRange s (e + 1) st, x ≤ e) ∧
      ∀ i : Nat, ∀ hi : i < (pyRange s (e + 1) st).length,
        (pyRange s (e + 1) st)[i] = s + st * (i : Int) := by
  refine ⟨?_, scan_timeline_map_fst fetch timerFires every s e st,
    pyRange_pairwise s (e + 1) st hst, pyRange_head s e st h1,
    fun x hx => (pyRange_mem_bounds s e st h1 hst x hx).2,
    fun i hi => pyRange_getElem s (e + 1) st i hi⟩
  rw [scan_timeline_length, pyRangeLen_valid s e st h1]

/-- C3 witness: scanning heights 100..200 with stride 50. -/
theorem scan_height_sequence_witness :
    (100 : Int) ≤ 200 ∧ (1 : Int) ≤ 50 ∧
      ((scan_codehash_timeline (fun _ => Except.ok none) (fun _ => false) 25
          100 200 50).timeline).length = ((200 - 100 : Int)).toNat / ((50 : Int)).toNat + 1 :=
  ⟨by decide, by decide,
    (scan_height_sequence (fun _ => Except.ok none) (fun _ => false) 25 100 200 50
      (by decide) (by decide)).1⟩

/-- C4: a per-height fetch failure is caught: the failing height's entry is
downgraded to absence, every sampled height still gets exactly one entry (the
timeline is the full map over the sampled heights, in strictly ascending
order), and the loop never aborts. -/
theorem scan_failure_downgraded (fetch : Int → Except String (Option String))
    (timerFires : Nat → Bool) (every : Nat) (s e st : Int) (hst : 1 ≤ st)
    (b : Int) (msg : String) (hb : fetch b = .error msg) :
    (scan_codehash_timeline fetch timerFires every s e st).timeline
        = (pyRange s (e + 1) st).map (fun blk => (blk, caughtHash (fetch blk))) ∧
      List.Pairwise (· < ·)
        ((scan_codehash_timeline fetch timerFires every s e st).timeline.map Prod.fst) ∧
      (b ∈ pyRange s (e + 1) st →
        (b, (none : Option String))
          ∈ (scan_codehash_timeline fetch timerFires every s e st).timeline) := by
  refine ⟨scan_timeline_eq fetch timerFires every s e st, ?_, ?_⟩
  · rw [scan_timeline_map_fst]
    exact pyRange_pairwise s (e + 1) st hst
  · intro hmem
    rw [scan_timeline_eq]
    refine List.mem_map.mpr ⟨b, hmem, ?_⟩
    rw [hb]
    rfl

/-- C4 witness: a fetcher failing at height 1 inside the range 0..2. -/
theorem scan_failure_downgraded_witness :
    (1 : Int) ≤ 1 ∧
      (fun b : Int => if b = 1 then (Except.error "node error" : Except String (Option String))
          else Except.ok (some "aa")) 1 = Except.error "node error" ∧
      ((1 : Int), (none : Option String))
        ∈ (scan_codehash_timeline
            (fun b : Int => if b = 1 then Except.error "node error" else Except.ok (some "aa"))
            (fun _ => false) 25 0 2 1).timeline :=
  ⟨by decide, rfl,
    (scan_failure_downgraded
      (fun b : Int => if b = 1 then Except.error "node error" else Except.ok (some "aa"))
      (fun _ => false) 25 0 2 1 (by decide) 1 "node error" rfl).2.2 (by decide)⟩

/-- C8: for a fixed fetcher and fixed `(start, end, stride)` the scan's
timeline, change points and `changed` verdict are the same whatever the
wall-clock progress oracle and cadence do — two runs give identical results. -/
theorem scan_deterministic (fetch : Int → Except String (Option String))
    (t1 t2 : Nat → Bool) (ev1 ev2 : Nat) (s e st : Int) :
    (scan_codehash_timeline fetch t1 ev1 s e st).timeline
        = (scan_codehash_timeline fetch t2 ev2 s e st).timeline ∧
      summarize_changes (scan_codehash_timeline fetch t1 ev1 s e st).timeline
        = summarize_changes (scan_codehash_timeline fetch t2 ev2 s e st).timeline ∧
      changedOf (scan_codehash_timeline fetch t1 ev1 s e st).timeline
        = changedOf (scan_codehash_timeline fetch t2 ev2 s e st).timeline := by
  have h : (scan_codehash_timeline fetch t1 ev1 s e st).timeline
      = (scan_codehash_timeline fetch t2 ev2 s e st).timeline := by
    rw [scan_timeline_eq, scan_timeline_eq]
  exact ⟨h, by rw [h], by rw [h]⟩

/-- C9 counterexample: the spec's cancellation scenario (cancel after 3 of 10
samples, get a 3-entry partial timeline) is impossible — over the 10-sample
input `start=0, end=9, stride=1`, no fetcher and no progress behaviour makes
the scan return a 3-entry timeline, because the loop has no cancellation
check and always completes. -/
theorem scan_no_partial_result :
    ¬ ∃ (fetch : Int → Except String (Option String)) (timerFires : Nat → Bool)
        (every : Nat),
        ((scan_codehash_timeline fetch timerFires every 0 9 1).timeline).length = 3 := by
  rintro ⟨f, t, ev, h⟩
  rw [scan_timeline_length] at h
  exact absurd h (by decide)

/-- C9 (amended): the scan supports no cancellation: for every fetcher and
every progress behaviour it runs to completion, producing exactly one
timeline entry per sampled height and invoking the fetch at every sampled
height; a partial timeline is never returned. -/
theorem scan_runs_to_completion (fetch : Int → Except String (Option String))
    (timerFires : Nat → Bool) (every : Nat) (s e st : Int) :
    ((scan_codehash_timeline fetch timerFires every s e st).timeline).length
        = (pyRange s (e + 1) st).length ∧
      (scan_codehash_timeline fetch timerFires every s e st).calls
        = pyRange s (e + 1) st := by
  constructor
  · rw [scan_timeline_length, pyRange_length]
  · exact scanLoop_calls fetch timerFires every 1 _

/-! ## Claim theorems about the changed verdict, validation and degradation -/

/-- C2: the `changed` verdict is true iff the timeline has two non-absence
entries with differing digests; in particular an absence-only timeline and a
single-version timeline (absence interleaved or not) yield `changed = false`. -/
theorem changed_iff_two_distinct_hashes (t : List (Int × Option String)) :
    (changedOf t = true ↔
        ∃ e1 ∈ t, ∃ e2 ∈ t, ∃ a b : String,
          e1.2 = some a ∧ e2.2 = some b ∧ a ≠ b) ∧
      ((∀ e ∈ t, e.2 = (none : Option String)) → changedOf t = false) ∧
      (∀ a0 : String, (∀ e ∈ t, e.2 = none ∨ e.2 = some a0) →
        changedOf t = false) := by
  have hmem : ∀ a : String, a ∈ unique_hashes t ↔ ∃ e ∈ t, e.2 = some a := by
    intro a
    simp [unique_hashes, List.mem_filterMap]
  have hiff : changedOf t = true ↔
      ∃ e1 ∈ t, ∃ e2 ∈ t, ∃ a b : String,
        e1.2 = some a ∧ e2.2 = some b ∧ a ≠ b := by
    unfold changedOf
    rw [decide_eq_true_eq, Finset.one_lt_card]
    constructor
    · rintro ⟨a, ha, b, hb, hab⟩
      obtain ⟨e1, he1, he1a⟩ := (hmem a).mp ha
      obtain ⟨e2, he2, he2b⟩ := (hmem b).mp hb
      exact ⟨e1, he1, e2, he2, a, b, he1a, he2b, hab⟩
    · rintro ⟨e1, he1, e2, he2, a, b, ha, hb, hab⟩
      exact ⟨a, (hmem a).mpr ⟨e1, he1, ha⟩, b, (hmem b).mpr ⟨e2, he2, hb⟩, hab⟩
  refine ⟨hiff, ?_, ?_⟩
  · intro hall
    cases hch : changedOf t with
    | false => rfl
    | true =>
      exfalso
      obtain ⟨e1, he1, _, _, a, _, ha, _, _⟩ := hiff.mp hch
      rw [hall e1 he1] at ha
      exact Option.noConfusion ha
  · intro a0 hall
    cases hch : changedOf t with
    | false => rfl
    | true =>
      exfalso
      obtain ⟨e1, he1, e2, he2, a, b, ha, hb, hab⟩ := hiff.mp hch
      have hA : a = a0 := by
        rcases hall e1 he1 with h | h
        · rw [h] at ha
          exact Option.noConfusion ha
        · rw [h] at ha
          exact (Option.some.inj ha).symm
      have hB : b = a0 := by
        rcases hall e2 he2 with h | h
        · rw [h] at hb
          exact Option.noConfusion hb
        · rw [h] at hb
          exact (Option.some.inj hb).symm
      exact hab (hA.trans hB.symm)

/-- C2 witness: a two-version timeline is reported as changed. -/
theorem changed_iff_two_distinct_hashes_witness :
    changedOf [(100, some "a"), (175, some "b")] = true :=
  (changed_iff_two_distinct_hashes [(100, some "a"), (175, some "b")]).1.mpr
    ⟨(100, some "a"), by decide, (175, some "b"), by decide, "a", "b", rfl, rfl,
      by decide⟩

/-- C5: with a well-formed RPC URL, a reversed range or a non-positive stride
makes `main` fail with the range error before the fetcher is ever consulted:
the result is `InvalidRange` with an empty fetch-invocation trace, for every
fetcher, address validity and connectivity. -/
theorem main_invalid_range_no_fetch (addrOk connOk : Bool)
    (fetch : Int → Except String (Option String)) (timerFires : Nat → Bool)
    (from_block to_block step : Int)
    (hbad : to_block < from_block ∨ step ≤ 0) :
    mainPipeline true addrOk connOk fetch timerFires from_block to_block step
      = (Except.error MainError.invalidRange, ([] : List Int)) := by
  unfold mainPipeline
  rcases hbad with hlt | hstep
  · rw [if_neg (by decide), if_pos (by omega)]
  · by_cases hgt : from_block > to_block
    · rw [if_neg (by decide), if_pos hgt]
    · rw [if_neg (by decide), if_neg hgt, if_pos hstep]

/-- C5 witness: the spec's scenario `start=500, end=100`. -/
theorem main_invalid_range_no_fetch_witness :
    ((100 : Int) < 500 ∨ (1 : Int) ≤ 0) ∧
      mainPipeline true true true (fun _ => Except.ok none) (fun _ => false)
          500 100 1
        = (Except.error MainError.invalidRange, ([] : List Int)) :=
  ⟨Or.inl (by decide),
    main_invalid_range_no_fetch true true (fun _ => Except.ok none) (fun _ => false)
      500 100 1 (Or.inl (by decide))⟩

/-- C7: a fetch failure and a genuine empty-bytecode absence at the same
height (identical readers elsewhere) produce numerically equal timelines but
different observable scan output: the degradation warning line is printed
only in the failing run, so the two are distinguishable at the reporting
boundary through the accompanying side-channel log. -/
theorem degraded_entry_distinguishable (keccak : List Nat → String) :
    (scan_codehash_timeline (codehash_at keccak getCodeFailingAt5)
          (fun _ => false) 25 4 6 1).timeline
        = (scan_codehash_timeline (codehash_at keccak getCodeEmptyAt5)
            (fun _ => false) 25 4 6 1).timeline ∧
      (scan_codehash_timeline (codehash_at keccak getCodeFailingAt5)
          (fun _ => false) 25 4 6 1).printed
        ≠ (scan_codehash_timeline (codehash_at keccak getCodeEmptyAt5)
            (fun _ => false) 25 4 6 1).printed := by
  constructor
  · rfl
  · intro hcontra
    have hA : (scan_codehash_timeline (codehash_at keccak getCodeFailingAt5)
        (fun _ => false) 25 4 6 1).printed
          = [warnLine 5 "get_code failed at block 5: boom"] := rfl
    have hB : (scan_codehash_timeline (codehash_at keccak getCodeEmptyAt5)
        (fun _ => false) 25 4 6 1).printed = [] := rfl
    rw [hA, hB] at hcontra
    exact List.cons_ne_nil _ _ hcontra

/-- C7 witness: the same pair of runs under a fixed digest function. -/
theorem degraded_entry_distinguishable_witness :
    (scan_codehash_timeline (codehash_at (fun _ => "k") getCodeFailingAt5)
          (fun _ => false) 25 4 6 1).timeline
        = (scan_codehash_timeline (codehash_at (fun _ => "k") getCodeEmptyAt5)
            (fun _ => false) 25 4 6 1).timeline ∧
      (scan_codehash_timeline (codehash_at (fun _ => "k") getCodeFailingAt5)
          (fun _ => false) 25 4 6 1).printed
        ≠ (scan_codehash_timeline (codehash_at (fun _ => "k") getCodeEmptyAt5)
            (fun _ => false) 25 4 6 1).printed :=
  degraded_entry_distinguishable (fun _ => "k")
